import Mathlib

/-!
# Response detection of `content-scripts/deepseek.js`

A shallow embedding of the content script: its module variables become the fields of
`State`, the browser facilities it calls (timers, the mutation observer, the runtime
message channel, the DOM queries, `JSON.parse`, `String.prototype.match`) become small
executable models, and every function of the script becomes a function on `State`.

JavaScript strings are sequences of UTF-16 code units, so `Str` is `List Nat`.
-/

namespace DeepSeek

/-! ## Strings -/

/-- A JavaScript string: its UTF-16 code units. -/
abbrev Str := List Nat

/-- UTF-16 encoding of one code point. -/
def utf16 (c : Nat) : List Nat :=
  if c < 65536 then [c] else [55296 + (c - 65536) / 1024, 56320 + (c - 65536) % 1024]

/-- The JavaScript string denoted by a Lean string literal. -/
def js (s : String) : Str := s.toList.flatMap (fun c => utf16 c.toNat)

/-- ECMAScript `WhiteSpace` and `LineTerminator` code units: the class `\s` of a regular
expression, and what `String.prototype.trim` strips. -/
def isWs (c : Nat) : Bool :=
  c == 9 || c == 10 || c == 11 || c == 12 || c == 13 || c == 32 || c == 160 ||
  c == 5760 || (8192 ≤ c && c ≤ 8202) || c == 8232 || c == 8233 || c == 8239 ||
  c == 8287 || c == 12288 || c == 65279

/-- The method `String.prototype.trimStart`. -/
def trimStart : Str → Str
  | [] => []
  | c :: t => if isWs c then trimStart t else c :: t

/-- The method `String.prototype.trim`. -/
def trim (s : Str) : Str := (trimStart (trimStart s).reverse).reverse

/-- The class `[\u200B-\u200D\uFEFF]`. -/
def isZeroWidth (c : Nat) : Bool := (8203 ≤ c && c ≤ 8205) || c == 65279

/-- The expression `responseText.replace(/[\u200B-\u200D\uFEFF]/g, "").trim()`. -/
def cleanText (responseText : Str) : Str :=
  trim (responseText.filter (fun c => !isZeroWidth c))

/-- The method `String.prototype.includes`. -/
def includes : Str → Str → Bool
  | [], p => p.isEmpty
  | c :: t, p => p.isPrefixOf (c :: t) || includes t p

/-! ## Regular expressions

The four patterns of the script use only literals, `\s*`, `[\s\S]*?` and one optional
group. They are embedded with the backtracking semantics of ECMAScript: a matcher takes
the continuation that matches the rest of the pattern, and alternatives are tried in the
priority order of the specification (a greedy quantifier tries the longer match first, a
lazy one the shorter). -/

/-- The operation `Canonicalize` of a pattern without the `u` flag, restricted to what the patterns of
the script can observe: all their literal characters are ASCII, an ASCII letter is
mapped to its upper case, and a code unit above 127 is never mapped to an ASCII one. -/
def canonicalize (c : Nat) : Nat := if 97 ≤ c ∧ c ≤ 122 then c - 32 else c

/-- Character comparison of a pattern: exact, or under the flag `i`. -/
def chEq (ignoreCase : Bool) (p c : Nat) : Bool :=
  if ignoreCase then canonicalize p == canonicalize c else p == c

/-- Matches the literal `p` at the start of the input and returns the rest. -/
def dropLit (ignoreCase : Bool) : Str → Str → Option Str
  | [], s => some s
  | _ :: _, [] => none
  | p :: ps, c :: cs => if chEq ignoreCase p c then dropLit ignoreCase ps cs else none

/-- A literal followed by the rest of the pattern `k`. -/
def lit {ρ : Type} (ignoreCase : Bool) (p : Str) (k : Str → Option ρ) (s : Str) : Option ρ :=
  match dropLit ignoreCase p s with
  | some rest => k rest
  | none => none

/-- The greedy group `(?:...)?`: first with the group, then without it. -/
def optionalGroup {ρ : Type} (m : (Str → Option ρ) → Str → Option ρ)
    (k : Str → Option ρ) (s : Str) : Option ρ :=
  match m k s with
  | some r => some r
  | none => k s

/-- The greedy `\s*` followed by `k`: the longest run of white space first. -/
def greedyWs {ρ : Type} (k : Str → Option ρ) : Str → Option ρ
  | [] => k []
  | c :: t =>
    if isWs c then
      match greedyWs k t with
      | some r => some r
      | none => k (c :: t)
    else k (c :: t)

/-- The lazy `[\s\S]*?` followed by `k`: the shortest run first. -/
def lazyAny {ρ : Type} (k : Str → Option ρ) : Str → Option ρ
  | [] => k []
  | c :: t =>
    match k (c :: t) with
    | some r => some r
    | none => lazyAny k t

/-- The search of `String.prototype.match` without the flag `g`: the pattern is tried at
every start position from the left, the end of the input included. -/
def search {ρ : Type} (m : Str → Option ρ) : Str → Option ρ
  | [] => m []
  | c :: t =>
    match m (c :: t) with
    | some r => some r
    | none => search m t

/-- The text between a position (given by the input that starts there) and a later
position (given by the input that remains there). -/
def matched (start rest : Str) : Str := start.take (start.length - rest.length)

/-- The pattern of `fencedJsonMatch` tried at one position; the result is group 1. -/
def fencedAt (s : Str) : Option Str :=
  lit true (js "```")
    (optionalGroup (lit true (js "json"))
      (greedyWs (fun b =>
        lazyAny (fun e => greedyWs (lit true (js "```") (fun _ => some (matched b e))) e) b)))
    s

/-- Group 1 of the first match of ``/```(?:json)?\s*([\s\S]*?)\s*```/i``, or `none`. -/
def fencedJsonRe (s : Str) : Option Str := search fencedAt s

/-- The pattern `\{[\s\S]*?"answer"[\s\S]*?"explanation"[\s\S]*?\}` tried at one
position; the result is the input that remains after the match. -/
def answerExplanationAt (ignoreCase : Bool) (s : Str) : Option Str :=
  lit ignoreCase (js "\x7b")
    (lazyAny (lit ignoreCase (js "\"answer\"")
      (lazyAny (lit ignoreCase (js "\"explanation\"")
        (lazyAny (lit ignoreCase (js "\x7d") some))))))
    s

/-- The text of the first match of `/\{[\s\S]*?"answer"[\s\S]*?"explanation"[\s\S]*?\}/`
(with the flag `i` when `ignoreCase`), or `none`. -/
def answerExplanationRe (ignoreCase : Bool) (s : Str) : Option Str :=
  search (fun t => (answerExplanationAt ignoreCase t).map (matched t)) s

/-- The pattern `\{[\s\S]*?"answer"[\s\S]*?\}` tried at one position. -/
def answerAt (s : Str) : Option Str :=
  lit false (js "\x7b")
    (lazyAny (lit false (js "\"answer\"") (lazyAny (lit false (js "\x7d") some))))
    s

/-- The text of the first match of `/\{[\s\S]*?"answer"[\s\S]*?\}/`, or `none`. -/
def answerRe (s : Str) : Option Str :=
  search (fun t => (answerAt t).map (matched t)) s

/-! ## JSON values and `JSON.parse` -/

/-- The values `JSON.parse` can return, and `undefined`. A number keeps the decimal
literal it was read from: its value is `mant * 10 ^ exp`, negated when `neg`. An object
keeps its members in source order. -/
inductive JSVal where
  | undefined : JSVal
  | null : JSVal
  | bool (b : Bool) : JSVal
  | num (neg : Bool) (mant : Nat) (exp : Int) : JSVal
  | str (units : Str) : JSVal
  | arr (items : List JSVal) : JSVal
  | obj (members : List (Str × JSVal)) : JSVal

/-- The exceptions the embedded code can meet. -/
inductive JSError where
  | syntaxError : JSError
  | typeError : JSError

/-- Whether the double nearest to `mant * 10 ^ exp` is zero: the literal is zero, or it
is at most `2 ^ (-1075)`, half of the least positive double (a tie rounds to even). -/
def numIsZero (mant : Nat) (exp : Int) : Bool :=
  mant == 0 || (exp < 0 && decide (mant * 2 ^ 1075 ≤ 10 ^ exp.natAbs))

/-- The abstract operation `ToBoolean`. -/
def toBoolean : JSVal → Bool
  | .undefined => false
  | .null => false
  | .bool b => b
  | .num _ mant exp => !numIsZero mant exp
  | .str units => !units.isEmpty
  | .arr _ => true
  | .obj _ => true

/-- The value of the last member named `key`, as `CreateDataProperty` leaves it when a
name is repeated. -/
def lookupLast (key : Str) : List (Str × JSVal) → Option JSVal
  | [] => none
  | (k, v) :: rest =>
    match lookupLast key rest with
    | some w => some w
    | none => if k == key then some v else none

/-- Property access `v.key` for a name that no prototype defines (such as `answer`):
a `TypeError` on `undefined` and `null`, the own property of an object, and
`undefined` on every other value. -/
def getProp (v : JSVal) (key : Str) : Except JSError JSVal :=
  match v with
  | .undefined => .error .typeError
  | .null => .error .typeError
  | .obj members => .ok ((lookupLast key members).getD .undefined)
  | _ => .ok .undefined

/-- JSON white space: tab, line feed, carriage return, space. -/
def isJsonWs (c : Nat) : Bool := c == 9 || c == 10 || c == 13 || c == 32

/-- Skips JSON white space. -/
def skipWs : Str → Str
  | [] => []
  | c :: t => if isJsonWs c then skipWs t else c :: t

/-- Whether the code unit is a decimal digit. -/
def isDigit (c : Nat) : Bool := 48 ≤ c && c ≤ 57

/-- The value of a hexadecimal digit. -/
def hexVal (c : Nat) : Option Nat :=
  if 48 ≤ c ∧ c ≤ 57 then some (c - 48)
  else if 97 ≤ c ∧ c ≤ 102 then some (c - 87)
  else if 65 ≤ c ∧ c ≤ 70 then some (c - 55)
  else none

/-- The code unit of the escape `\uXXXX`. -/
def hex4 (a b c d : Nat) : Option Nat :=
  match hexVal a, hexVal b, hexVal c, hexVal d with
  | some x, some y, some z, some w => some (((x * 16 + y) * 16 + z) * 16 + w)
  | _, _, _, _ => none

/-- The code unit of a single-character escape. -/
def unescape (c : Nat) : Option Nat :=
  if c == 34 then some 34 else if c == 92 then some 92 else if c == 47 then some 47
  else if c == 98 then some 8 else if c == 102 then some 12 else if c == 110 then some 10
  else if c == 114 then some 13 else if c == 116 then some 9 else none

/-- Reads the characters of a JSON string after its opening quote, up to and including
the closing quote: the string value and the remaining input. -/
def parseChars : Str → Option (Str × Str)
  | [] => none
  | c :: t =>
    if c == 34 then some ([], t)
    else if c == 92 then
      match t with
      | [] => none
      | e :: t1 =>
        if e == 117 then
          match t1 with
          | a :: b :: c1 :: d :: t2 =>
            match hex4 a b c1 d, parseChars t2 with
            | some u, some (v, rest) => some (u :: v, rest)
            | _, _ => none
          | _ => none
        else
          match unescape e, parseChars t1 with
          | some u, some (v, rest) => some (u :: v, rest)
          | _, _ => none
    else if c < 32 then none
    else
      match parseChars t with
      | some (v, rest) => some (c :: v, rest)
      | none => none

/-- Splits off the leading decimal digits. -/
def takeDigits : Str → Str × Str
  | [] => ([], [])
  | c :: t => if isDigit c then (c :: (takeDigits t).1, (takeDigits t).2) else ([], c :: t)

/-- The number written by a list of decimal digits. -/
def digitsVal (ds : Str) : Nat := ds.foldl (fun acc d => acc * 10 + (d - 48)) 0

/-- The optional fraction of a JSON number: a dot and at least one digit. -/
def parseFrac (s : Str) : Option (Str × Str) :=
  match s with
  | [] => some ([], [])
  | c :: t =>
    if c == 46 then
      if (takeDigits t).1.isEmpty then none else some (takeDigits t)
    else some ([], c :: t)

/-- The digits of an exponent after its optional sign. -/
def parseExpDigits (neg : Bool) (s : Str) : Option (Int × Str) :=
  if (takeDigits s).1.isEmpty then none
  else if neg then some (-(digitsVal (takeDigits s).1 : Int), (takeDigits s).2)
  else some ((digitsVal (takeDigits s).1 : Int), (takeDigits s).2)

/-- The optional exponent of a JSON number. -/
def parseExp (s : Str) : Option (Int × Str) :=
  match s with
  | [] => some (0, [])
  | c :: t =>
    if c == 101 || c == 69 then
      match t with
      | [] => none
      | d :: t1 =>
        if d == 43 then parseExpDigits false t1
        else if d == 45 then parseExpDigits true t1
        else parseExpDigits false (d :: t1)
    else some (0, c :: t)

/-- The digits of a JSON number after its optional minus sign. -/
def parseUnsigned (neg : Bool) (s : Str) : Option (JSVal × Str) :=
  match s with
  | [] => none
  | c :: t =>
    if isDigit c then
      let ip : Str × Str := if c == 48 then ([48], t) else takeDigits (c :: t)
      match parseFrac ip.2 with
      | none => none
      | some (fr, s3) =>
        match parseExp s3 with
        | none => none
        | some (e, s4) => some (.num neg (digitsVal (ip.1 ++ fr)) (e - (fr.length : Int)), s4)
    else none

/-- A JSON number. -/
def parseNumber (s : Str) : Option (JSVal × Str) :=
  match s with
  | [] => none
  | c :: t => if c == 45 then parseUnsigned true t else parseUnsigned false (c :: t)

mutual

/-- A JSON value at the start of the input (white space already skipped). Every
recursive call is made after at least one character was consumed, so a fuel above the
length of the input is never exhausted. -/
def parseValue : Nat → Str → Option (JSVal × Str)
  | 0, _ => none
  | fuel + 1, s =>
    match s with
    | [] => none
    | c :: t =>
      if c == 123 then
        match skipWs t with
        | [] => none
        | d :: t1 =>
          if d == 125 then some (.obj [], t1)
          else
            match parseMembers fuel (d :: t1) with
            | some (ms, r) => some (.obj ms, r)
            | none => none
      else if c == 91 then
        match skipWs t with
        | [] => none
        | d :: t1 =>
          if d == 93 then some (.arr [], t1)
          else
            match parseElements fuel (d :: t1) with
            | some (vs, r) => some (.arr vs, r)
            | none => none
      else if c == 34 then
        match parseChars t with
        | some (v, r) => some (.str v, r)
        | none => none
      else if c == 116 then
        match dropLit false (js "true") (c :: t) with
        | some r => some (.bool true, r)
        | none => none
      else if c == 102 then
        match dropLit false (js "false") (c :: t) with
        | some r => some (.bool false, r)
        | none => none
      else if c == 110 then
        match dropLit false (js "null") (c :: t) with
        | some r => some (.null, r)
        | none => none
      else parseNumber (c :: t)

/-- The elements of a non-empty array up to and including the closing bracket. -/
def parseElements : Nat → Str → Option (List JSVal × Str)
  | 0, _ => none
  | fuel + 1, s =>
    match parseValue fuel s with
    | none => none
    | some (v, r) =>
      match skipWs r with
      | [] => none
      | c :: t =>
        if c == 44 then
          match parseElements fuel (skipWs t) with
          | some (vs, r2) => some (v :: vs, r2)
          | none => none
        else if c == 93 then some ([v], t)
        else none

/-- The members of a non-empty object up to and including the closing brace. -/
def parseMembers : Nat → Str → Option (List (Str × JSVal) × Str)
  | 0, _ => none
  | fuel + 1, s =>
    match s with
    | [] => none
    | q :: t =>
      if q == 34 then
        match parseChars t with
        | none => none
        | some (key, r) =>
          match skipWs r with
          | [] => none
          | d :: r1 =>
            if d == 58 then
              match parseValue fuel (skipWs r1) with
              | none => none
              | some (v, r2) =>
                match skipWs r2 with
                | [] => none
                | e :: r3 =>
                  if e == 44 then
                    match parseMembers fuel (skipWs r3) with
                    | some (ms, r4) => some ((key, v) :: ms, r4)
                    | none => none
                  else if e == 125 then some ([(key, v)], r3)
                  else none
            else none
      else none

end

/-- The function `JSON.parse` on a string: the value, or a `SyntaxError`. -/
def JSON.parse (text : Str) : Except JSError JSVal :=
  match parseValue (text.length + 1) (skipWs text) with
  | some (v, rest) => if (skipWs rest).isEmpty then .ok v else .error .syntaxError
  | none => .error .syntaxError

/-! ## The page -/

/-- The selectors of `messageSelectors`, in their order. -/
inductive MessageSelector where
  | chatMessageAssistant : MessageSelector
  | modelResponse : MessageSelector
  | dsMarkdown : MessageSelector
  | f9bf7997 : MessageSelector

/-- The selectors of `codeBlockSelectors`, in their order. -/
inductive CodeBlockSelector where
  | mdCodeBlockPre : CodeBlockSelector
  | preCode : CodeBlockSelector
  | pre : CodeBlockSelector
  | codeBlockPre : CodeBlockSelector
  | dsMarkdownPre : CodeBlockSelector

/-- An element of the page as the script sees it: which message selectors it matches,
its `textContent`, and the `textContent` of the descendants that
`querySelectorAll` returns for each code block selector. -/
structure Element where
  matchesSel : MessageSelector → Bool
  textContent : Str
  querySelectorAll : CodeBlockSelector → List Str

/-- The page at one moment: its elements in document order, and whether
`#chat-input` and an enabled send button can be found. -/
structure Document where
  elements : List Element
  chatInput : Bool
  sendButton : Bool

/-- The call `document.querySelectorAll` with a selector list: the elements that match
one of the selectors, in document order. -/
def Document.querySelectorAll (doc : Document) (group : List MessageSelector) : List Element :=
  doc.elements.filter (fun e => group.any e.matchesSel)

/-! ## State -/

/-- What the script does that can be observed from outside: a call of
`chrome.runtime.sendMessage` with a `deepseekResponse`, and a call of `resetObservation`
(which ends an observation session). -/
inductive Obs where
  | sent (response : Str) : Obs
  | reset : Obs
  deriving DecidableEq

/-- The module variables of the script, followed by the state of the browser it acts
on: the next timer handle, the timers and observers that are armed, the continuations
that are scheduled, and the trace of observable actions. -/
structure State where
  hasResponded : Bool
  messageCountAtQuestion : Nat
  observationStartTime : Nat
  observationTimeout : Option Nat
  checkIntervalId : Option Nat
  observer : Option Nat
  nextId : Nat
  liveTimeouts : List Nat
  liveIntervals : List Nat
  liveObservers : List Nat
  pendingFocus : Nat
  pendingSend : Nat
  awaiting : Nat
  trace : List Obs

/-- The state when the script is loaded. -/
def State.init : State :=
  { hasResponded := false, messageCountAtQuestion := 0, observationStartTime := 0,
    observationTimeout := none, checkIntervalId := none, observer := none,
    nextId := 1, liveTimeouts := [], liveIntervals := [], liveObservers := [],
    pendingFocus := 0, pendingSend := 0, awaiting := 0, trace := [] }

/-- The promise an `async` function returns: what it settles to. -/
structure Promise where
  settles : Except JSError Bool

/-- A promise is an object, and `ToBoolean` of an object is `true`. -/
def Promise.toBoolean (_ : Promise) : Bool := true

/-- How a loop body ends: with `return`, or by going on to the next iteration. -/
inductive Flow where
  | returned (s : State) : Flow
  | continues (s : State) : Flow

/-! ## The functions of the script -/

/-- The function `resetObservation`. A timer handle is a number, cleared when it is
truthy; the observer is an object. -/
def resetObservation (s : State) : State :=
  let s1 : State := { s with hasResponded := false, trace := s.trace ++ [Obs.reset] }
  let s2 : State :=
    match s1.observationTimeout with
    | some id =>
      if id != 0 then
        { s1 with liveTimeouts := s1.liveTimeouts.filter (fun x => x != id),
                  observationTimeout := none }
      else s1
    | none => s1
  let s3 : State :=
    match s2.checkIntervalId with
    | some id =>
      if id != 0 then
        { s2 with liveIntervals := s2.liveIntervals.filter (fun x => x != id),
                  checkIntervalId := none }
      else s2
    | none => s2
  match s3.observer with
  | some id =>
    { s3 with liveObservers := s3.liveObservers.filter (fun x => x != id), observer := none }
  | none => s3

/-- The candidate `processResponse` selects from the cleaned text: the trimmed group of
the fenced match when there is one and it is not empty, else the match of the
two-key pattern, else the whole cleaned text. -/
def selectCandidate (cleanedText : Str) : Str :=
  let fallback : Str :=
    match answerExplanationRe true cleanedText with
    | some m => m
    | none => cleanedText
  match fencedJsonRe cleanedText with
  | some g => if (trim g).isEmpty then fallback else trim g
  | none => fallback

/-- The `try` block of `processResponse` up to its `await`: an exception, or whether
the candidate was accepted, with the state in which the function is then suspended
(`hasResponded` set, the message handed to `chrome.runtime.sendMessage`). -/
def tryBlock (candidate : Str) (s : State) : Except JSError (Option State) :=
  match JSON.parse candidate with
  | .error e => .error e
  | .ok parsed =>
    if toBoolean parsed then
      match getProp parsed (js "answer") with
      | .error e => .error e
      | .ok answer =>
        if toBoolean answer && !s.hasResponded then
          .ok (some { s with hasResponded := true,
                             trace := s.trace ++ [Obs.sent candidate],
                             awaiting := s.awaiting + 1 })
        else .ok none
    else .ok none

/-- The function `processResponse` as its caller sees it: the promise it returns and
the state when it returns, that is when it has finished or is suspended at its `await`.
The rest of an accepted call (`resetObservation(); return true`) is `sendSettled`. -/
def processResponse (responseText : Str) (s : State) : Promise × State :=
  let cleanedText := cleanText responseText
  let candidate := selectCandidate cleanedText
  match tryBlock candidate s with
  | .ok (some s1) => ({ settles := .ok true }, s1)
  | .ok none => ({ settles := .ok false }, s)
  | .error _ => ({ settles := .ok false }, s)

/-- The continuation of an accepted `processResponse` once the send has settled
(fulfilled, or rejected and caught): `resetObservation()`. -/
def sendSettled (s : State) : State :=
  if s.awaiting = 0 then s else resetObservation { s with awaiting := s.awaiting - 1 }

/-- The loop over the code blocks of one selector. -/
def scanBlocks : List Str → State → Flow
  | [], s => .continues s
  | block :: rest, s =>
    let responseText := trim block
    if includes responseText (js "\x7b") && includes responseText (js "\"answer\"") then
      let r := processResponse responseText s
      if r.1.toBoolean then .returned r.2 else scanBlocks rest r.2
    else scanBlocks rest s

/-- The loop over `codeBlockSelectors` for one message. -/
def scanSelectors (message : Element) : List CodeBlockSelector → State → Flow
  | [], s => .continues s
  | selector :: rest, s =>
    match scanBlocks (message.querySelectorAll selector) s with
    | .returned s1 => .returned s1
    | .continues s1 => scanSelectors message rest s1

/-- The list `codeBlockSelectors`. -/
def codeBlockSelectors : List CodeBlockSelector :=
  [.mdCodeBlockPre, .preCode, .pre, .codeBlockPre, .dsMarkdownPre]

/-- The late branch of the loop body of `checkForResponse`. -/
def lateBranch (now : Nat) (messageText : Str) (s : State) : Flow :=
  if now - s.observationStartTime > 30000 then
    match answerExplanationRe false messageText with
    | some lateMatch =>
      if !s.hasResponded then
        .returned (resetObservation
          { s with hasResponded := true, trace := s.trace ++ [Obs.sent lateMatch] })
      else .continues s
    | none => .continues s
  else .continues s

/-- The body of the loop over `newMessages`. -/
def scanMessage (now : Nat) (message : Element) (s : State) : Flow :=
  match scanSelectors message codeBlockSelectors s with
  | .returned s1 => .returned s1
  | .continues s1 =>
    let messageText := trim message.textContent
    match answerRe messageText with
    | some jsonMatch =>
      let r := processResponse jsonMatch s1
      if r.1.toBoolean then .returned r.2 else lateBranch now messageText r.2
    | none => lateBranch now messageText s1

/-- The loop over `newMessages`. -/
def scanMessages (now : Nat) : List Element → State → State
  | [], s => s
  | message :: rest, s =>
    match scanMessage now message s with
    | .returned s1 => s1
    | .continues s1 => scanMessages now rest s1

/-- The list `messageSelectors`. -/
def messageSelectors : List MessageSelector :=
  [.chatMessageAssistant, .modelResponse, .dsMarkdown, .f9bf7997]

/-- The first loop of `checkForResponse`: the matches of the first selector that has
any. -/
def findMessages (doc : Document) : List MessageSelector → List Element
  | [] => []
  | selector :: rest =>
    if (doc.querySelectorAll [selector]).length > 0 then doc.querySelectorAll [selector]
    else findMessages doc rest

/-- The messages `checkForResponse` scans: those after the baseline count. -/
def newMessages (doc : Document) (s : State) : List Element :=
  (findMessages doc messageSelectors).drop s.messageCountAtQuestion

/-- The function `checkForResponse`, on the page `doc` at time `now`. -/
def checkForResponse (doc : Document) (now : Nat) (s : State) : State :=
  if s.hasResponded then s
  else if (findMessages doc messageSelectors).length ≤ s.messageCountAtQuestion then s
  else scanMessages now (newMessages doc s) s

/-- The function `startObserving` at time `now`: the three handles are fresh. -/
def startObserving (now : Nat) (s : State) : State :=
  { s with observationStartTime := now,
           observationTimeout := some s.nextId,
           observer := some (s.nextId + 1),
           checkIntervalId := some (s.nextId + 2),
           liveTimeouts := s.liveTimeouts ++ [s.nextId],
           liveObservers := s.liveObservers ++ [s.nextId + 1],
           liveIntervals := s.liveIntervals ++ [s.nextId + 2],
           nextId := s.nextId + 3 }

/-- The listener for a `receiveQuestion` message, up to the point where
`insertQuestion` has scheduled its first continuation (or rejected because the input
is missing). -/
def receiveQuestion (doc : Document) (s : State) : State :=
  let s1 := resetObservation s
  let messages := doc.querySelectorAll [.chatMessageAssistant, .modelResponse, .dsMarkdown]
  let s2 : State := { s1 with messageCountAtQuestion := messages.length, hasResponded := false }
  if doc.chatInput then { s2 with pendingFocus := s2.pendingFocus + 1 } else s2

/-- The first continuation of `insertQuestion` (after 50 ms): it writes the text and
schedules the second. -/
def focusTimer (s : State) : State :=
  if s.pendingFocus = 0 then s
  else { s with pendingFocus := s.pendingFocus - 1, pendingSend := s.pendingSend + 1 }

/-- The second continuation of `insertQuestion` (after 300 ms more): it clicks the send
button and calls `startObserving`, or rejects when there is no button. -/
def sendTimer (doc : Document) (now : Nat) (s : State) : State :=
  if s.pendingSend = 0 then s
  else
    let s1 : State := { s with pendingSend := s.pendingSend - 1 }
    if doc.sendButton then startObserving now s1 else s1

/-- The callback of the session timeout with handle `id`, when it is still armed. -/
def sessionTimeout (id : Nat) (s : State) : State :=
  if s.liveTimeouts.contains id then
    let s1 : State := { s with liveTimeouts := s.liveTimeouts.filter (fun x => x != id) }
    if !s1.hasResponded then resetObservation s1 else s1
  else s

/-- What can happen next: a message from the extension, a scheduled continuation, or a
trigger that fires. -/
inductive Event where
  | receiveQuestion (doc : Document) : Event
  | focusTimer : Event
  | sendTimer (doc : Document) (now : Nat) : Event
  | mutation (id : Nat) (doc : Document) (now : Nat) : Event
  | interval (id : Nat) (doc : Document) (now : Nat) : Event
  | sessionTimeout (id : Nat) : Event
  | sendSettled : Event

/-- One event. A trigger that is no longer armed does not fire. -/
def step (s : State) : Event → State
  | .receiveQuestion doc => receiveQuestion doc s
  | .focusTimer => focusTimer s
  | .sendTimer doc now => sendTimer doc now s
  | .mutation id doc now => if s.liveObservers.contains id then checkForResponse doc now s else s
  | .interval id doc now => if s.liveIntervals.contains id then checkForResponse doc now s else s
  | .sessionTimeout id => sessionTimeout id s
  | .sendSettled => sendSettled s

/-- A sequence of events. -/
def run (s : State) (events : List Event) : State := events.foldl step s

/-! ## Observations on a trace -/

/-- The number of messages sent in a trace. -/
def sentCount : List Obs → Nat
  | [] => 0
  | .sent _ :: t => sentCount t + 1
  | .reset :: t => sentCount t

/-- The number of messages sent before the first `resetObservation` of a trace: the
messages of the session the trace starts in. -/
def sessionSends : List Obs → Nat
  | [] => 0
  | .sent _ :: t => sessionSends t + 1
  | .reset :: _ => 0

/-- Whether a trace contains a call of `resetObservation`. -/
def hasReset : List Obs → Bool
  | [] => false
  | .sent _ :: t => hasReset t
  | .reset :: _ => true

/-- What `later` has added to the trace of `earlier`. -/
def traceSince (earlier later : State) : List Obs := later.trace.drop earlier.trace.length

/-- The state in which an accepted `processResponse` is suspended. -/
def accept (candidate : Str) (s : State) : State :=
  { s with hasResponded := true,
           trace := s.trace ++ [Obs.sent candidate],
           awaiting := s.awaiting + 1 }

/-- Whether `processResponse` accepts a parsed value: it is truthy and so is its
`answer`. -/
def accepts (parsed : JSVal) : Bool :=
  toBoolean parsed &&
    (match getProp parsed (js "answer") with
     | .ok answer => toBoolean answer
     | .error _ => false)

/-- Whether a candidate passes the validation of `processResponse`. -/
def validCandidate (candidate : Str) : Bool :=
  match JSON.parse candidate with
  | .ok parsed => accepts parsed
  | .error _ => false

/-- The effect of one action on the trace and on `hasResponded`. -/
inductive Effect : List Obs → Bool → Bool → Prop where
  | silent (b : Bool) : Effect [] b b
  | send (m : Str) : Effect [Obs.sent m] false true
  | reset (b : Bool) : Effect [Obs.reset] b false

/-- The invariant of a session with trace `T` so far: at most one message was sent
before the first reset, and none as long as `hasResponded` is still false. -/
def SessionOk (T : List Obs) (hr : Bool) : Prop :=
  sessionSends T ≤ 1 ∧ (hasReset T = false → hr = false → sessionSends T = 0)


/-! ## The reading of the specification, for comparison -/

/-- The acceptance rule in the words of the specification: the parsed value is an
object whose `answer` is present and not `null`. -/
def specAccepts (parsed : JSVal) : Bool :=
  match parsed with
  | .obj members =>
    match lookupLast (js "answer") members with
    | some .null => false
    | some .undefined => false
    | some _ => true
    | none => false
  | _ => false

/-! ## Concrete pages and texts -/

/-- The payload of the scenario of the specification. -/
def payload : Str := js "\x7b\"answer\":\"4\",\"explanation\":\"Basic arithmetic.\"\x7d"

/-- A page without any response region. -/
def emptyPage : Document := { elements := [], chatInput := true, sendButton := true }

/-- An element that matches the message selectors `sels`, with the given text, whose
`pre` descendants hold `blocks` (no other code block selector matches). -/
def region (sels : List MessageSelector) (text : Str) (blocks : List Str) : Element :=
  { matchesSel := fun sel =>
      sels.any (fun x =>
        match x, sel with
        | .chatMessageAssistant, .chatMessageAssistant => true
        | .modelResponse, .modelResponse => true
        | .dsMarkdown, .dsMarkdown => true
        | .f9bf7997, .f9bf7997 => true
        | _, _ => false),
    textContent := text,
    querySelectorAll := fun sel =>
      match sel with
      | .pre => blocks
      | _ => [] }

/-- A page with the given elements, an input and a send button. -/
def page (elements : List Element) : Document :=
  { elements := elements, chatInput := true, sendButton := true }

/-- A question received on the page `doc` and sent at time `now`: the state when
`startObserving` has returned. -/
def opened (doc : Document) (now : Nat) : State :=
  run State.init [.receiveQuestion doc, .focusTimer, .sendTimer doc now]

/-- A reply that renders the payload in a code block. -/
def answerRegion : Element := region [.dsMarkdown] payload [payload]

/-- A text whose JSON is cut off, as while the reply is still streaming. -/
def partialText : Str := js "\x7b\"answer\":\"4\",\"explanation\":\"Basic"

/-- A payload whose answer is the number zero. -/
def zeroAnswer : Str := js "\x7b\"answer\":0,\"explanation\":\"Nothing is left.\"\x7d"

/-- A region of the fallback class `.f9bf7997` only, holding the payload. -/
def legacyRegion : Element := region [.f9bf7997] payload [payload]

/-- A reply with two code blocks: one cut off, then the payload. -/
def twoBlockRegion : Element :=
  region [.dsMarkdown] (partialText ++ js "\n" ++ payload) [partialText, payload]

/-- A reply that writes the two keys outside a code block, not as valid JSON. -/
def looseText : Str := js "Result: \x7b\"answer\": \"4\", \"explanation\": Basic arithmetic\x7d"

/-- The region of `looseText`, without code blocks. -/
def looseRegion : Element := region [.dsMarkdown] looseText []

/-- Two questions received so close together that the second arrives before the
continuations of the first have run: both then reach `startObserving`. -/
def overlapped : State :=
  run State.init
    [.receiveQuestion emptyPage, .receiveQuestion emptyPage, .focusTimer, .focusTimer,
     .sendTimer emptyPage 1000, .sendTimer emptyPage 1001]

/-- A reply whose only code block is cut off. -/
def partialRegion : Element := region [.dsMarkdown] partialText [partialText]

/-- A brace-delimited text with the key `"answer"` and, after it, the key
`"explanation"`; `g1`, `g2` and `g3` are what stands between. -/
def braced (g1 g2 g3 : Str) : Str :=
  js "\x7b" ++ g1 ++ js "\"answer\"" ++ g2 ++ js "\"explanation\"" ++ g3 ++ js "\x7d"

/-- A text in which prose precedes an object with both keys, and the prose has braces
of its own. -/
def proseWithBraces : Str :=
  js "Take \x7bx\x7d then \x7b\"answer\":\"4\",\"explanation\":\"Basic arithmetic.\"\x7d"

/-- A text with a fenced block: `pre`, three backticks, a tag, white space, the inner
content, white space, three backticks, `post`. -/
def fenced (pre tag ws1 inner ws2 post : Str) : Str :=
  pre ++ js "```" ++ tag ++ ws1 ++ inner ++ ws2 ++ js "```" ++ post

/-- A fenced block tagged `javascript` that holds the payload. -/
def taggedText : Str :=
  js "```javascript\n\x7b\"answer\":\"4\",\"explanation\":\"Basic arithmetic.\"\x7d\n```"

/-- A fenced block tagged `json` whose object has the answer `false`. -/
def falseAnswerText : Str :=
  js "```json\n\x7b\"answer\":false,\"explanation\":\"It does not hold.\"\x7d\n```"

/-- A reply that wraps the payload in a `json` block between two sentences. -/
def fencedReply : Str :=
  js "Here is the answer:\n```json\n\x7b\"answer\":\"4\",\"explanation\":\"Basic arithmetic.\"\x7d\n```\nDone."

/-! ## Basic facts about `processResponse` -/

theorem tryBlock_eq (c : Str) (s : State) :
    tryBlock c s =
      match JSON.parse c with
      | .error e => .error e
      | .ok parsed =>
        if accepts parsed && !s.hasResponded then .ok (some (accept c s)) else .ok none := by
  unfold tryBlock accepts accept
  cases hp : JSON.parse c with
  | error e => rfl
  | ok parsed =>
    cases parsed <;> cases hr : s.hasResponded <;>
      simp [toBoolean, getProp]

theorem processResponse_eq (t : Str) (s : State) :
    processResponse t s =
      if validCandidate (selectCandidate (cleanText t)) && !s.hasResponded then
        ({ settles := .ok true }, accept (selectCandidate (cleanText t)) s)
      else ({ settles := .ok false }, s) := by
  unfold processResponse validCandidate
  simp only [tryBlock_eq]
  cases JSON.parse (selectCandidate (cleanText t)) with
  | error e => simp
  | ok parsed =>
    by_cases h : (accepts parsed && !s.hasResponded) = true
    · simp [h]
    · simp [h]

/-! ## Facts about the patterns -/

theorem search_eq_lazyAny {ρ : Type} (m : Str → Option ρ) (s : Str) :
    search m s = lazyAny m s := by
  induction s with
  | nil => rfl
  | cons c t ih => simp [search, lazyAny, ih]

theorem dropLit_suffix (b : Bool) (p s r : Str) (h : dropLit b p s = some r) : r <:+ s := by
  induction p generalizing s with
  | nil =>
    simp [dropLit] at h
    subst h
    exact List.suffix_refl _
  | cons a p ih =>
    cases s with
    | nil => simp [dropLit] at h
    | cons c cs =>
      simp only [dropLit] at h
      split at h
      · exact (ih cs h).trans (List.suffix_cons c cs)
      · simp at h

theorem lazyAny_isSome_iff {ρ : Type} (k : Str → Option ρ) (s : Str) :
    (lazyAny k s).isSome = true ↔ ∃ z, z <:+ s ∧ (k z).isSome = true := by
  induction s with
  | nil =>
    simp [lazyAny]
  | cons c t ih =>
    simp only [lazyAny]
    cases hk : k (c :: t) with
    | some r =>
      simp only [Option.isSome_some, true_iff]
      exact ⟨c :: t, List.suffix_refl _, by simp [hk]⟩
    | none =>
      simp only [ih]
      constructor
      · rintro ⟨z, hz, hkz⟩
        exact ⟨z, hz.trans (List.suffix_cons c t), hkz⟩
      · rintro ⟨z, hz, hkz⟩
        rcases List.suffix_cons_iff.mp hz with h | h
        · subst h
          simp [hk] at hkz
        · exact ⟨z, h, hkz⟩

theorem lazyAny_mono {ρ σ : Type} (k : Str → Option ρ) (k2 : Str → Option σ)
    (h : ∀ x, (k x).isSome = true → (k2 x).isSome = true) (s : Str)
    (hs : (lazyAny k s).isSome = true) : (lazyAny k2 s).isSome = true := by
  rw [lazyAny_isSome_iff] at hs ⊢
  obtain ⟨z, hz, hkz⟩ := hs
  exact ⟨z, hz, h z hkz⟩

theorem lit_mono {ρ σ : Type} (b : Bool) (p : Str) (k : Str → Option ρ) (k2 : Str → Option σ)
    (h : ∀ x, (k x).isSome = true → (k2 x).isSome = true) (s : Str)
    (hs : (lit b p k s).isSome = true) : (lit b p k2 s).isSome = true := by
  unfold lit at hs ⊢
  cases hd : dropLit b p s with
  | none => simp [hd] at hs
  | some r =>
    simp only [hd] at hs ⊢
    exact h r hs

theorem lit_lazyAny_weaken {ρ : Type} (b : Bool) (p : Str) (k : Str → Option ρ) (s : Str)
    (hs : (lit b p (lazyAny k) s).isSome = true) : (lazyAny k s).isSome = true := by
  unfold lit at hs
  cases hd : dropLit b p s with
  | none => simp [hd] at hs
  | some r =>
    simp only [hd] at hs
    rw [lazyAny_isSome_iff] at hs ⊢
    obtain ⟨z, hz, hkz⟩ := hs
    exact ⟨z, hz.trans (dropLit_suffix b p s r hd), hkz⟩

/-- Wherever the two-key pattern matches, the one-key pattern matches too. -/
theorem answerAt_of_answerExplanationAt (s : Str)
    (h : (answerExplanationAt false s).isSome = true) : (answerAt s).isSome = true := by
  unfold answerExplanationAt at h
  unfold answerAt
  refine lit_mono false _ _ _ ?_ s h
  intro x hx
  refine lazyAny_mono _ _ ?_ x hx
  intro y hy
  refine lit_mono false _ _ _ ?_ y hy
  intro z hz
  rw [lazyAny_isSome_iff] at hz
  obtain ⟨w, hw, hkw⟩ := hz
  have h2 := lit_lazyAny_weaken false _ _ w hkw
  rw [lazyAny_isSome_iff] at h2 ⊢
  obtain ⟨v, hv, hkv⟩ := h2
  exact ⟨v, hv.trans hw, hkv⟩

/-- A text without a match of the one-key pattern has no match of the two-key pattern:
the late branch of `checkForResponse` never finds a `lateMatch` when it is reached. -/
theorem answerExplanationRe_none_of_answerRe_none (t : Str) (h : answerRe t = none) :
    answerExplanationRe false t = none := by
  unfold answerRe at h
  unfold answerExplanationRe
  rw [search_eq_lazyAny] at h ⊢
  by_contra hne
  have h1 : (lazyAny (fun t => Option.map (matched t) (answerExplanationAt false t)) t).isSome
      = true := by
    cases hx : lazyAny (fun t => Option.map (matched t) (answerExplanationAt false t)) t with
    | none => exact absurd hx hne
    | some r => rfl
  have h2 := lazyAny_mono _ (fun t => Option.map (matched t) (answerAt t)) ?_ t h1
  · simp [h] at h2
  · intro x hx
    simp only [Option.isSome_map'] at hx ⊢
    exact answerAt_of_answerExplanationAt x hx

/-! ## What one rescan can do -/

theorem scanBlocks_cases (blocks : List Str) (s : State) :
    scanBlocks blocks s = .continues s ∨
      ∃ t, scanBlocks blocks s = .returned (processResponse t s).2 := by
  induction blocks with
  | nil => exact Or.inl rfl
  | cons b rest ih =>
    simp only [scanBlocks, Promise.toBoolean, if_true]
    split
    · exact Or.inr ⟨trim b, rfl⟩
    · exact ih

theorem scanSelectors_cases (message : Element) (sels : List CodeBlockSelector) (s : State) :
    scanSelectors message sels s = .continues s ∨
      ∃ t, scanSelectors message sels s = .returned (processResponse t s).2 := by
  induction sels with
  | nil => exact Or.inl rfl
  | cons sel rest ih =>
    simp only [scanSelectors]
    rcases scanBlocks_cases (message.querySelectorAll sel) s with h | ⟨t, h⟩
    · rw [h]
      exact ih
    · rw [h]
      exact Or.inr ⟨t, rfl⟩

theorem scanMessage_cases (now : Nat) (message : Element) (s : State) :
    scanMessage now message s = .continues s ∨
      ∃ t, scanMessage now message s = .returned (processResponse t s).2 := by
  unfold scanMessage
  rcases scanSelectors_cases message codeBlockSelectors s with h | ⟨t, h⟩
  · rw [h]
    simp only [Promise.toBoolean, if_true]
    cases hm : answerRe (trim message.textContent) with
    | some m => exact Or.inr ⟨m, rfl⟩
    | none =>
      left
      simp [lateBranch, answerExplanationRe_none_of_answerRe_none _ hm]
  · rw [h]
    exact Or.inr ⟨t, rfl⟩

theorem scanMessages_cases (now : Nat) (messages : List Element) (s : State) :
    scanMessages now messages s = s ∨
      ∃ t, scanMessages now messages s = (processResponse t s).2 := by
  induction messages with
  | nil => exact Or.inl rfl
  | cons m rest ih =>
    simp only [scanMessages]
    rcases scanMessage_cases now m s with h | ⟨t, h⟩
    · rw [h]
      exact ih
    · rw [h]
      exact Or.inr ⟨t, rfl⟩

/-- A rescan either changes nothing, or it is one accepted `processResponse`: the
message it sends passed the validation, and the state is left suspended at the `await`. -/
theorem checkForResponse_cases (doc : Document) (now : Nat) (s : State) :
    checkForResponse doc now s = s ∨
      (s.hasResponded = false ∧
        ∃ c, validCandidate c = true ∧ checkForResponse doc now s = accept c s) := by
  unfold checkForResponse
  cases hr : s.hasResponded with
  | true => simp
  | false =>
    simp only [Bool.false_eq_true, if_false]
    split
    · exact Or.inl rfl
    · rcases scanMessages_cases now (newMessages doc s) s with h | ⟨t, h⟩
      · exact Or.inl h
      · rw [h, processResponse_eq]
        by_cases hv : validCandidate (selectCandidate (cleanText t)) = true
        · right
          exact ⟨trivial, selectCandidate (cleanText t), hv, by simp [hv, hr]⟩
        · left
          simp [hv]

/-! ## The session invariant -/

theorem sessionSends_append (T D : List Obs) :
    sessionSends (T ++ D) = if hasReset T then sessionSends T else sessionSends T + sessionSends D := by
  induction T with
  | nil => simp [sessionSends, hasReset]
  | cons o T ih =>
    cases o with
    | sent m =>
      rw [List.cons_append]
      simp only [sessionSends, hasReset]
      rw [ih]
      split <;> omega
    | reset => simp [sessionSends, hasReset]

theorem hasReset_append (T D : List Obs) :
    hasReset (T ++ D) = (hasReset T || hasReset D) := by
  induction T with
  | nil => simp [hasReset]
  | cons o T ih =>
    cases o with
    | sent m => simp [hasReset, ih]
    | reset => simp [hasReset]

theorem SessionOk_step (T D : List Obs) (b b2 : Bool) (h : SessionOk T b)
    (e : Effect D b b2) : SessionOk (T ++ D) b2 := by
  obtain ⟨h1, h2⟩ := h
  cases e with
  | silent => simpa using ⟨h1, h2⟩
  | send m =>
    refine ⟨?_, ?_⟩
    · rw [sessionSends_append]
      cases hT : hasReset T with
      | true => simpa using h1
      | false =>
        have := h2 hT rfl
        simp [sessionSends, this]
    · intro _ hb
      simp at hb
  | reset =>
    refine ⟨?_, ?_⟩
    · rw [sessionSends_append]
      cases hT : hasReset T with
      | true => simpa using h1
      | false => simpa [sessionSends] using h1
    · intro hT
      rw [hasReset_append] at hT
      simp [hasReset] at hT

theorem resetObservation_trace (s : State) :
    (resetObservation s).trace = s.trace ++ [Obs.reset] := by
  unfold resetObservation
  cases s.observationTimeout <;> cases s.checkIntervalId <;> cases s.observer <;>
    simp <;> (repeat' split) <;> simp

theorem resetObservation_hasResponded (s : State) :
    (resetObservation s).hasResponded = false := by
  unfold resetObservation
  cases s.observationTimeout <;> cases s.checkIntervalId <;> cases s.observer <;>
    simp <;> (repeat' split) <;> simp

theorem resetObservation_effect (s : State) :
    ∃ D, (resetObservation s).trace = s.trace ++ D ∧
      Effect D s.hasResponded (resetObservation s).hasResponded :=
  ⟨[Obs.reset], resetObservation_trace s, by
    rw [resetObservation_hasResponded]
    exact Effect.reset _⟩

theorem silent_effect (s : State) :
    ∃ D, s.trace = s.trace ++ D ∧ Effect D s.hasResponded s.hasResponded :=
  ⟨[], by simp, Effect.silent _⟩

theorem checkForResponse_effect (doc : Document) (now : Nat) (s : State) :
    ∃ D, (checkForResponse doc now s).trace = s.trace ++ D ∧
      Effect D s.hasResponded (checkForResponse doc now s).hasResponded := by
  rcases checkForResponse_cases doc now s with h | ⟨hr, c, _, h⟩
  · rw [h]
    exact silent_effect s
  · rw [h, hr]
    exact ⟨[Obs.sent c], rfl, Effect.send c⟩

theorem step_effect (s : State) (e : Event) :
    ∃ D, (step s e).trace = s.trace ++ D ∧ Effect D s.hasResponded (step s e).hasResponded := by
  cases e with
  | receiveQuestion doc =>
    refine ⟨[Obs.reset], ?_, ?_⟩
    · simp only [step, receiveQuestion]
      split <;> simp [resetObservation_trace]
    · have : (step s (Event.receiveQuestion doc)).hasResponded = false := by
        simp only [step, receiveQuestion]
        split <;> rfl
      rw [this]
      exact Effect.reset _
  | focusTimer =>
    simp only [step, focusTimer]
    split
    · exact silent_effect s
    · exact ⟨[], by simp, Effect.silent _⟩
  | sendTimer doc now =>
    simp only [step, sendTimer]
    split
    · exact silent_effect s
    · split
      · exact ⟨[], by simp [startObserving], Effect.silent _⟩
      · exact ⟨[], by simp, Effect.silent _⟩
  | mutation id doc now =>
    simp only [step]
    split
    · exact checkForResponse_effect doc now s
    · exact silent_effect s
  | interval id doc now =>
    simp only [step]
    split
    · exact checkForResponse_effect doc now s
    · exact silent_effect s
  | sessionTimeout id =>
    simp only [step, sessionTimeout]
    split
    · split
      · obtain ⟨D, h1, h2⟩ := resetObservation_effect
          { s with liveTimeouts := s.liveTimeouts.filter (fun x => x != id) }
        exact ⟨D, h1, h2⟩
      · exact ⟨[], by simp, Effect.silent _⟩
    · exact silent_effect s
  | sendSettled =>
    simp only [step, sendSettled]
    split
    · exact silent_effect s
    · obtain ⟨D, h1, h2⟩ := resetObservation_effect { s with awaiting := s.awaiting - 1 }
      exact ⟨D, h1, h2⟩

theorem run_sessionOk (events : List Event) (s : State) (base T : List Obs)
    (ht : s.trace = base ++ T) (hok : SessionOk T s.hasResponded) :
    ∃ T2, (run s events).trace = base ++ T2 ∧ SessionOk T2 (run s events).hasResponded := by
  induction events generalizing s T with
  | nil => exact ⟨T, ht, hok⟩
  | cons e rest ih =>
    obtain ⟨D, hD, hE⟩ := step_effect s e
    have h := ih (step s e) (T ++ D) (by rw [hD, ht, List.append_assoc])
      (SessionOk_step T D _ _ hok hE)
    simpa [run] using h

theorem traceSince_append (s s2 : State) (D : List Obs) (h : s2.trace = s.trace ++ D) :
    traceSince s s2 = D := by
  simp [traceSince, h]

theorem accept_rescan (doc : Document) (now : Nat) (c : Str) (s : State) :
    checkForResponse doc now (accept c s) = accept c s := by
  simp [checkForResponse, accept]

/-- Claim C1. Within one observation session, that is from `startObserving` to the next
call of `resetObservation` (a new question starts with one), at most one
`deepseekResponse` is sent, whatever the events and the pages they see; and when two
rescans would each find a valid payload and the second runs before the send of the
first has settled, exactly one message is sent, and no reset happens in between. -/
theorem at_most_once_delivery :
    (∀ (s : State) (now : Nat) (events : List Event),
      sessionSends (traceSince s (run (startObserving now s) events)) ≤ 1) ∧
    (∀ (s : State) (doc1 doc2 : Document) (now1 now2 : Nat),
      s.hasResponded = false →
      1 ≤ sentCount (traceSince s (checkForResponse doc1 now1 s)) →
      1 ≤ sentCount (traceSince s (checkForResponse doc2 now2 s)) →
      sentCount (traceSince s
          (checkForResponse doc2 now2 (checkForResponse doc1 now1 s))) = 1 ∧
        hasReset (traceSince s
          (checkForResponse doc2 now2 (checkForResponse doc1 now1 s))) = false) := by
  constructor
  · intro s now events
    obtain ⟨T2, h1, h2⟩ := run_sessionOk events (startObserving now s) s.trace []
      (by simp [startObserving]) ⟨by simp [sessionSends], fun _ _ => rfl⟩
    rw [traceSince_append s _ T2 h1]
    exact h2.1
  · intro s doc1 doc2 now1 now2 _ h1 _
    rcases checkForResponse_cases doc1 now1 s with h | ⟨_, c, _, h⟩
    · rw [h] at h1
      simp [traceSince, sentCount] at h1
    · rw [h, accept_rescan]
      have : traceSince s (accept c s) = [Obs.sent c] := traceSince_append s _ _ rfl
      rw [this]
      simp [sentCount, hasReset]

/-- Witness of claim C1: a question is opened on an empty page, the reply renders the
payload, and two rescans see it before the send settles. -/
theorem at_most_once_delivery_witness :
    (opened emptyPage 1000).hasResponded = false ∧
    1 ≤ sentCount (traceSince (opened emptyPage 1000)
      (checkForResponse (page [answerRegion]) 2000 (opened emptyPage 1000))) ∧
    sentCount (traceSince (opened emptyPage 1000)
      (checkForResponse (page [answerRegion]) 2001
        (checkForResponse (page [answerRegion]) 2000 (opened emptyPage 1000)))) = 1 :=
  ⟨by decide, by decide,
    (at_most_once_delivery.2 (opened emptyPage 1000) (page [answerRegion])
      (page [answerRegion]) 2000 2001 (by decide) (by decide) (by decide)).1⟩

/-! ## Acceptance (claims C3, C4, C8) -/

theorem accepts_obj (members : List (Str × JSVal)) :
    accepts (.obj members) = true ↔
      ∃ a, lookupLast (js "answer") members = some a ∧ toBoolean a = true := by
  unfold accepts
  cases h : lookupLast (js "answer") members with
  | none => simp [toBoolean, getProp, h]
  | some a => simp [toBoolean, getProp, h]

theorem processResponse_true_iff (text : Str) (s : State) :
    (processResponse text s).1.settles = .ok true ↔
      (validCandidate (selectCandidate (cleanText text)) = true ∧ s.hasResponded = false) := by
  rw [processResponse_eq]
  by_cases h : (validCandidate (selectCandidate (cleanText text)) && !s.hasResponded) = true
  · simp only [h, if_true, true_iff]
    simpa using h
  · simp only [h]
    simp only [Bool.and_eq_true, Bool.not_eq_true', not_and, Bool.not_eq_false] at h
    simp
    intro hv
    simpa using h hv

/-- Counterexample to claim C3 as stated: the candidate parses as an object whose
`answer` is the number 0, present and not null, and `processResponse` rejects it:
it settles to false and sends nothing. -/
theorem zero_answer_rejected :
    selectCandidate (cleanText zeroAnswer) = zeroAnswer ∧
    (JSON.parse zeroAnswer).toOption.map specAccepts = some true ∧
    (processResponse zeroAnswer State.init).1.settles.toOption = some false ∧
    (processResponse zeroAnswer State.init).2.trace = [] := by
  refine ⟨by decide, by decide, by decide, by decide⟩

/-- Claim C3, amended. For a candidate that parses as a JSON object, `processResponse`
called with `hasResponded = false` accepts it (settles to true, sets `hasResponded` and
sends the candidate) if and only if the object has an `answer` that is truthy: present
and neither null, false, a number that is zero, nor the empty string. Otherwise it
settles to false and leaves the state as it was. -/
theorem accepts_iff_answer_truthy (text : Str) (s : State) (members : List (Str × JSVal))
    (hr : s.hasResponded = false)
    (hp : JSON.parse (selectCandidate (cleanText text)) = .ok (.obj members)) :
    ((processResponse text s).1.settles = .ok true ↔
      ∃ a, lookupLast (js "answer") members = some a ∧ a ≠ .undefined ∧ a ≠ .null ∧
        a ≠ .bool false ∧ (∀ neg mant exp, a = .num neg mant exp → numIsZero mant exp = false) ∧
        a ≠ .str []) ∧
    ((processResponse text s).1.settles = .ok true →
      (processResponse text s).2 = accept (selectCandidate (cleanText text)) s) ∧
    ((processResponse text s).1.settles ≠ .ok true →
      (processResponse text s).1.settles = .ok false ∧ (processResponse text s).2 = s) := by
  have hv : validCandidate (selectCandidate (cleanText text)) = accepts (.obj members) := by
    simp [validCandidate, hp]
  refine ⟨?_, ?_, ?_⟩
  · rw [processResponse_true_iff, hv, accepts_obj]
    simp only [hr, and_true]
    constructor
    · rintro ⟨a, ha, hb⟩
      refine ⟨a, ha, ?_⟩
      cases a <;> simp_all [toBoolean]
    · rintro ⟨a, ha, h1, h2, h3, h4, h5⟩
      refine ⟨a, ha, ?_⟩
      cases a with
      | undefined => exact absurd rfl h1
      | null => exact absurd rfl h2
      | bool b => cases b <;> simp_all [toBoolean]
      | num n m e => simp [toBoolean, h4 n m e rfl]
      | str u => cases u <;> simp_all [toBoolean]
      | arr _ => rfl
      | obj _ => rfl
  · intro h
    rw [processResponse_true_iff] at h
    rw [processResponse_eq]
    simp [h.1, h.2]
  · intro h
    rw [Ne, processResponse_true_iff] at h
    rw [processResponse_eq]
    by_cases hc : (validCandidate (selectCandidate (cleanText text)) && !s.hasResponded) = true
    · exfalso
      apply h
      simpa using hc
    · simp [hc]

/-- Witness of claim C3 (amended): the payload of the scenario is accepted. -/
theorem accepts_iff_answer_truthy_witness :
    State.init.hasResponded = false ∧
    (processResponse payload State.init).2 = accept payload State.init :=
  ⟨rfl, (accepts_iff_answer_truthy payload State.init
      [(js "answer", .str (js "4")), (js "explanation", .str (js "Basic arithmetic."))]
      rfl (by rfl)).2.1 (by rfl)⟩

/-- Claim C4. For every text `processResponse` settles to a boolean, never to an
exception; and when the candidate it selects is not parseable as JSON it settles to
false and leaves the whole state unchanged: no message sent, `hasResponded` and the
armed triggers as they were. -/
theorem processResponse_never_raises (text : Str) (s : State) :
    (∃ b, (processResponse text s).1.settles = .ok b) ∧
    (∀ e, JSON.parse (selectCandidate (cleanText text)) = .error e →
      (processResponse text s).1.settles = .ok false ∧ (processResponse text s).2 = s) := by
  constructor
  · rw [processResponse_eq]
    split
    · exact ⟨true, rfl⟩
    · exact ⟨false, rfl⟩
  · intro e he
    rw [processResponse_eq]
    simp [validCandidate, he]

/-- Witness of claim C4: a payload cut off while streaming is not parseable. -/
theorem processResponse_never_raises_witness :
    JSON.parse (selectCandidate (cleanText partialText)) = .error .syntaxError ∧
    (processResponse partialText (opened emptyPage 1000)).1.settles = .ok false ∧
    (processResponse partialText (opened emptyPage 1000)).2 = opened emptyPage 1000 :=
  ⟨by rfl, (processResponse_never_raises partialText (opened emptyPage 1000)).2
    .syntaxError (by rfl)⟩

/-- Counterexample to claim C8 as stated: on the payload of the scenario, the first
call settles to true and the second call, made right after it, settles to false. -/
theorem second_call_differs :
    (processResponse payload State.init).1.settles.toOption = some true ∧
    (processResponse payload (processResponse payload State.init).2).1.settles.toOption
      = some false := by
  refine ⟨by decide, by decide⟩

theorem sendSettled_accept_hasResponded (c : Str) (s : State) :
    (sendSettled (accept c s)).hasResponded = false := by
  have h : (accept c s).awaiting ≠ 0 := by simp [accept]
  rw [sendSettled, if_neg h]
  exact resetObservation_hasResponded _

/-- Claim C8, amended. The candidate and its validation depend on the text alone, but
the result also depends on `hasResponded`, which an accepting call sets and which the
same call clears again, through `resetObservation`, once its send has settled. For two
calls on the same text: when the first settles to false, it changed nothing and the
second does exactly the same. When the first settles to true, a second call made
before the send of the first has settled settles to false and changes nothing more,
while a second call made after that send has settled settles to true again and sends
the candidate a second time. -/
theorem processResponse_twice (text : Str) (s : State) :
    ((processResponse text s).1.settles = .ok false →
      (processResponse text s).2 = s ∧
      processResponse text (processResponse text s).2 = processResponse text s) ∧
    ((processResponse text s).1.settles = .ok true →
      ((processResponse text (processResponse text s).2).1.settles = .ok false ∧
        (processResponse text (processResponse text s).2).2 = (processResponse text s).2) ∧
      ((processResponse text (sendSettled (processResponse text s).2)).1.settles = .ok true ∧
        (processResponse text (sendSettled (processResponse text s).2)).2.trace
          = (sendSettled (processResponse text s).2).trace
              ++ [Obs.sent (selectCandidate (cleanText text))] ∧
        (sendSettled (processResponse text s).2).trace
          = s.trace ++ [Obs.sent (selectCandidate (cleanText text)), Obs.reset])) := by
  constructor
  · intro h
    have h2 : (processResponse text s).2 = s := by
      rw [processResponse_eq] at h ⊢
      split at h
      · simp at h
      · rename_i hc
        simp [hc]
    exact ⟨h2, by rw [h2]⟩
  · intro h
    rw [processResponse_true_iff] at h
    have h2 : (processResponse text s).2 = accept (selectCandidate (cleanText text)) s := by
      rw [processResponse_eq]
      simp [h.1, h.2]
    rw [h2]
    have h3 := sendSettled_accept_hasResponded (selectCandidate (cleanText text)) s
    refine ⟨?_, ?_, ?_, ?_⟩
    · rw [processResponse_eq]
      simp [accept]
    · rw [processResponse_true_iff]
      exact ⟨h.1, h3⟩
    · rw [processResponse_eq, h.1, h3]
      rfl
    · have hne : (accept (selectCandidate (cleanText text)) s).awaiting ≠ 0 := by
        simp [accept]
      rw [sendSettled, if_neg hne, resetObservation_trace]
      simp [accept]

/-- Witness of claim C8 (amended), both parts: a text that is not accepted, and the
payload of the scenario, for which the second call settles to false while the first is
suspended and to true, with a second message, after the send has settled. -/
theorem processResponse_twice_witness :
    ((processResponse partialText State.init).1.settles = .ok false ∧
      processResponse partialText (processResponse partialText State.init).2
        = processResponse partialText State.init) ∧
    ((processResponse payload State.init).1.settles = .ok true ∧
      (processResponse payload (processResponse payload State.init).2).1.settles = .ok false ∧
      (processResponse payload (sendSettled (processResponse payload State.init).2)).1.settles
        = .ok true ∧
      (processResponse payload (sendSettled (processResponse payload State.init).2)).2.trace
        = [Obs.sent payload, Obs.reset, Obs.sent payload]) :=
  ⟨⟨by rfl, ((processResponse_twice partialText State.init).1 (by rfl)).2⟩,
    ⟨by rfl, ((processResponse_twice payload State.init).2 (by rfl)).1.1,
      ((processResponse_twice payload State.init).2 (by rfl)).2.1, by decide⟩⟩

/-! ## Defects (claims C6, C7, C9, C10) -/

/-- Claim C6, at the failing input. The page holds one region of class `.f9bf7997`
before the question. The baseline counts only the first three selectors, so it is 0;
the rescan falls back to the fourth selector, takes the old region as new and sends
its payload, although the page has not changed. -/
theorem stale_region_delivered :
    (opened (page [legacyRegion]) 1000).messageCountAtQuestion = 0 ∧
    (newMessages (page [legacyRegion]) (opened (page [legacyRegion]) 1000)).map
      (fun e => e.textContent) = [payload] ∧
    traceSince (opened (page [legacyRegion]) 1000)
      (step (opened (page [legacyRegion]) 1000) (.interval 3 (page [legacyRegion]) 2000))
      = [Obs.sent payload] := by
  refine ⟨by decide, by decide, by decide⟩

/-- Claim C7, at the failing input. A second question arrives before the first has
reached `startObserving`; both start observing, the handles of the first are
overwritten, two of each trigger are armed, and `resetObservation` disarms only the
later ones: the interval 3, the observer 2 and the timeout 1 stay armed. -/
theorem overlapping_questions_leak :
    overlapped.liveTimeouts = [1, 4] ∧ overlapped.liveObservers = [2, 5] ∧
    overlapped.liveIntervals = [3, 6] ∧
    (resetObservation overlapped).liveTimeouts = [1] ∧
    (resetObservation overlapped).liveObservers = [2] ∧
    (resetObservation overlapped).liveIntervals = [3] ∧
    (receiveQuestion emptyPage overlapped).liveIntervals = [3] := by
  refine ⟨by decide, by decide, by decide, by decide, by decide, by decide, by decide⟩

/-- Claim C9, at the failing input. The first code block is cut off, the second holds
the payload, which `processResponse` would accept. The promise returned for the first
block is truthy, so the rescan returns there: nothing is sent, in this tick or (the
page being the same) in any later one. The same happens when the payload is in a later
region. -/
theorem scan_stops_at_first_block :
    validCandidate (selectCandidate (cleanText payload)) = true ∧
    traceSince (opened emptyPage 1000)
      (checkForResponse (page [twoBlockRegion]) 2000 (opened emptyPage 1000)) = [] ∧
    (checkForResponse (page [twoBlockRegion]) 2000 (opened emptyPage 1000)).hasResponded
      = false ∧
    traceSince (opened emptyPage 1000)
      (checkForResponse (page [partialRegion, answerRegion]) 2000 (opened emptyPage 1000))
      = [] := by
  refine ⟨by decide, by decide, by decide, by decide⟩

/-- Claim C10, at the failing input. The session has been open for 39000 ms and the
region holds, outside any code block, a brace-delimited text with both keys that is
not valid JSON. The one-key pattern matches it, `processResponse` rejects it, and the
truthy promise makes the rescan return before the late branch: nothing is sent and the
triggers stay armed. -/
theorem late_rescue_not_reached :
    40000 - (opened emptyPage 1000).observationStartTime > 30000 ∧
    answerExplanationRe false (trim looseText)
      = some (js "\x7b\"answer\": \"4\", \"explanation\": Basic arithmetic\x7d") ∧
    validCandidate (js "\x7b\"answer\": \"4\", \"explanation\": Basic arithmetic\x7d") = false ∧
    traceSince (opened emptyPage 1000)
      (checkForResponse (page [looseRegion]) 40000 (opened emptyPage 1000)) = [] ∧
    (checkForResponse (page [looseRegion]) 40000 (opened emptyPage 1000)).liveIntervals = [3] := by
  refine ⟨by decide, by decide, by decide, by decide, by decide⟩

/-! ## How the patterns select a candidate (claims C2, C5) -/

theorem js_brace_open : js "\x7b" = [123] := by decide

theorem js_brace_close : js "\x7d" = [125] := by decide

theorem js_fence : js "```" = [96, 96, 96] := by decide

theorem js_two_ticks : js "``" = [96, 96] := by decide

theorem js_json : js "json" = [106, 115, 111, 110] := by decide

theorem chEq_self (b : Bool) (c : Nat) : chEq b c c = true := by
  cases b <;> simp [chEq]

theorem canonicalize_eq_of_not_letter (p c : Nat) (hp : p < 65 ∨ (90 < p ∧ p < 97) ∨ 122 < p)
    (h : canonicalize p = canonicalize c) : p = c := by
  unfold canonicalize at h
  split at h <;> split at h <;> omega

theorem chEq_of_not_letter (b : Bool) (p c : Nat) (hp : p < 65 ∨ (90 < p ∧ p < 97) ∨ 122 < p)
    (h : chEq b p c = true) : p = c := by
  cases b with
  | false => simpa [chEq] using h
  | true =>
    simp only [chEq, if_true, beq_iff_eq] at h
    exact canonicalize_eq_of_not_letter p c hp h

theorem dropLit_append_self (b : Bool) (p t : Str) : dropLit b p (p ++ t) = some t := by
  induction p with
  | nil => rfl
  | cons a p ih => simp [dropLit, chEq_self, ih]

theorem dropLit_eq_drop (b : Bool) (p s z : Str) (h : dropLit b p s = some z) :
    z = s.drop p.length ∧ p.length ≤ s.length := by
  induction p generalizing s with
  | nil =>
    simp [dropLit] at h
    simp [h]
  | cons a p ih =>
    cases s with
    | nil => simp [dropLit] at h
    | cons c cs =>
      simp only [dropLit] at h
      split at h
      · have := ih cs h
        simp [this.1, this.2]
      · simp at h

theorem lazyAny_cons_none {ρ : Type} (k : Str → Option ρ) (c : Nat) (t : Str)
    (h : k (c :: t) = none) : lazyAny k (c :: t) = lazyAny k t := by
  rw [lazyAny, h]

theorem search_cons_none {ρ : Type} (m : Str → Option ρ) (c : Nat) (t : Str)
    (h : m (c :: t) = none) : search m (c :: t) = search m t := by
  rw [search, h]

theorem lazyAny_of_here {ρ : Type} (k : Str → Option ρ) (s : Str) (r : ρ) (h : k s = some r) :
    lazyAny k s = some r := by
  cases s with
  | nil => simpa [lazyAny] using h
  | cons c t => rw [lazyAny, h]

theorem lit_eq_none {ρ : Type} (b : Bool) (p : Str) (K : Str → Option ρ) (s : Str)
    (h : dropLit b p s = none) : lit b p K s = none := by
  rw [lit, h]

theorem lit_eq_of_drop {ρ : Type} (b : Bool) (p : Str) (K : Str → Option ρ) (s z : Str)
    (h : dropLit b p s = some z) : lit b p K s = K z := by
  rw [lit, h]

/-- A lazy gap followed by a literal `p` and a continuation that succeeds with `r` after
every `p`-sized step into the text: the whole succeeds with `r` as soon as the text
contains `p`. The set `ok` says what the text before the continuation may contain. -/
theorem lazyAny_lit_chain {ρ : Type} (b : Bool) (p tail : Str) (K : Str → Option ρ) (r : ρ)
    (ok : Nat → Prop) (hp : ∀ c ∈ p, ok c)
    (hK : ∀ u2 : Str, (∀ c ∈ u2, ok c) → K (u2 ++ tail) = some r)
    (u : Str) (hu : ∀ c ∈ u, ok c) :
    lazyAny (lit b p K) (u ++ p ++ tail) = some r := by
  have key : ∀ u : Str, (∀ c ∈ u, ok c) → ∀ z, dropLit b p (u ++ p ++ tail) = some z →
      K z = some r := by
    intro u hu z hz
    obtain ⟨hz1, _⟩ := dropLit_eq_drop b p _ z hz
    have hlen : p.length ≤ (u ++ p).length := by simp
    rw [List.drop_append_of_le_length hlen] at hz1
    rw [hz1]
    apply hK
    intro c hc
    have hc2 := List.mem_of_mem_drop hc
    rcases List.mem_append.mp hc2 with h | h
    · exact hu c h
    · exact hp c h
  induction u with
  | nil =>
    apply lazyAny_of_here
    rw [List.nil_append, lit_eq_of_drop b p K _ tail (dropLit_append_self b p tail)]
    simpa using hK [] (by simp)
  | cons c u ih =>
    have hu2 : ∀ c ∈ u, ok c := fun x hx => hu x (List.mem_cons_of_mem c hx)
    cases hd : dropLit b p (c :: u ++ p ++ tail) with
    | none =>
      have hn : lit b p K (c :: (u ++ p ++ tail)) = none := lit_eq_none b p K _ hd
      have e : c :: u ++ p ++ tail = c :: (u ++ p ++ tail) := by simp
      rw [e, lazyAny_cons_none _ _ _ hn]
      exact ih hu2
    | some z =>
      apply lazyAny_of_here
      rw [lit_eq_of_drop b p K _ z hd]
      exact key (c :: u) hu z hd

theorem lazyAny_close (post x : Str) (b : Bool) (hx : ∀ c ∈ x, c ≠ 125) :
    lazyAny (lit b [125] some) (x ++ 125 :: post) = some post := by
  induction x with
  | nil =>
    apply lazyAny_of_here
    simp [lit, dropLit, chEq_self]
  | cons c x ih =>
    have hc : c ≠ 125 := hx c (List.mem_cons_self c x)
    have hno : lit b [125] some (c :: (x ++ 125 :: post)) = none := by
      apply lit_eq_none
      simp only [dropLit]
      split
      · rename_i h
        exact absurd (chEq_of_not_letter b 125 c (by omega) h).symm hc
      · rfl
    rw [List.cons_append, lazyAny_cons_none _ _ _ hno]
    exact ih (fun y hy => hx y (List.mem_cons_of_mem c hy))

theorem search_skip {ρ : Type} (m : Str → Option ρ) (pre rest : Str)
    (h : ∀ u w, pre = u ++ w → w ≠ [] → m (w ++ rest) = none) :
    search m (pre ++ rest) = search m rest := by
  induction pre with
  | nil => rfl
  | cons c pre ih =>
    have h0 := h [] (c :: pre) rfl (by simp)
    rw [List.cons_append] at h0
    rw [List.cons_append, search_cons_none _ _ _ h0]
    apply ih
    intro u w hw hne
    exact h (c :: u) w (by simp [hw]) hne

theorem search_of_here {ρ : Type} (m : Str → Option ρ) (s : Str) (r : ρ) (h : m s = some r) :
    search m s = some r := by
  rw [search_eq_lazyAny]
  exact lazyAny_of_here m s r h

theorem matched_append (a b : Str) : matched (a ++ b) b = a := by
  simp [matched]

theorem includes_single (t : Str) (a : Nat) (h : includes t [a] = false) :
    ∀ c ∈ t, c ≠ a := by
  induction t with
  | nil => simp
  | cons x t ih =>
    simp only [includes, Bool.or_eq_false_iff] at h
    intro c hc
    rcases List.mem_cons.mp hc with hx | hx
    · subst hx
      intro hca
      subst hca
      simp [List.isPrefixOf] at h
    · exact ih h.2 c hx

theorem answerExplanationAt_braced (b : Bool) (g1 g2 g3 post : Str)
    (h1 : ∀ c ∈ g1, c ≠ 125) (h2 : ∀ c ∈ g2, c ≠ 125) (h3 : ∀ c ∈ g3, c ≠ 125) :
    answerExplanationAt b (braced g1 g2 g3 ++ post) = some post := by
  have hA : ∀ c ∈ js "\"answer\"", c ≠ 125 := by decide
  have hE : ∀ c ∈ js "\"explanation\"", c ≠ 125 := by decide
  have e : braced g1 g2 g3 ++ post =
      123 :: (g1 ++ js "\"answer\"" ++ (g2 ++ js "\"explanation\"" ++ (g3 ++ 125 :: post))) := by
    simp [braced, js_brace_open, js_brace_close]
  have hd : dropLit b [123]
      (123 :: (g1 ++ js "\"answer\"" ++ (g2 ++ js "\"explanation\"" ++ (g3 ++ 125 :: post))))
      = some (g1 ++ js "\"answer\"" ++ (g2 ++ js "\"explanation\"" ++ (g3 ++ 125 :: post))) := by
    simp [dropLit, chEq_self]
  rw [e, answerExplanationAt, js_brace_open, js_brace_close, lit_eq_of_drop b [123] _ _ _ hd]
  apply lazyAny_lit_chain b _ _ _ post (fun c => c ≠ 125) hA _ g1 h1
  intro u2 hu2
  have e2 : u2 ++ (g2 ++ js "\"explanation\"" ++ (g3 ++ 125 :: post)) =
      (u2 ++ g2) ++ js "\"explanation\"" ++ (g3 ++ 125 :: post) := by simp
  rw [e2]
  refine lazyAny_lit_chain b _ _ _ post (fun c => c ≠ 125) hE ?_ (u2 ++ g2) ?_
  · intro u3 hu3
    have e3 : u3 ++ (g3 ++ 125 :: post) = (u3 ++ g3) ++ 125 :: post := by simp
    rw [e3]
    apply lazyAny_close
    intro c hc
    rcases List.mem_append.mp hc with h | h
    · exact hu3 c h
    · exact h3 c h
  · intro c hc
    rcases List.mem_append.mp hc with h | h
    · exact hu2 c h
    · exact h2 c h

theorem answerExplanationAt_none_of_head (b : Bool) (c : Nat) (t : Str) (hc : c ≠ 123) :
    answerExplanationAt b (c :: t) = none := by
  rw [answerExplanationAt, js_brace_open]
  apply lit_eq_none
  simp only [dropLit]
  split
  · rename_i h
    exact absurd (chEq_of_not_letter b 123 c (by omega) h).symm hc
  · rfl

/-- The two-key pattern on prose without an opening brace followed by a braced text
whose only closing brace is its last character: the match is that braced text. -/
theorem answerExplanationRe_braced (b : Bool) (pre g1 g2 g3 post : Str)
    (hpre : ∀ c ∈ pre, c ≠ 123)
    (h1 : ∀ c ∈ g1, c ≠ 125) (h2 : ∀ c ∈ g2, c ≠ 125) (h3 : ∀ c ∈ g3, c ≠ 125) :
    answerExplanationRe b (pre ++ braced g1 g2 g3 ++ post) = some (braced g1 g2 g3) := by
  rw [answerExplanationRe, List.append_assoc, search_skip]
  · apply search_of_here
    simp only [answerExplanationAt_braced b g1 g2 g3 post h1 h2 h3, Option.map_some',
      matched_append]
  · intro u w hw hne
    cases w with
    | nil => exact absurd rfl hne
    | cons c w =>
      have hc : c ≠ 123 := hpre c (by simp [hw])
      simp [answerExplanationAt_none_of_head b c _ hc]

/-- Counterexample to claim C5 as stated: the text has no fenced block and contains a
brace-delimited valid object with both keys, but the prose before it has a brace of
its own; the candidate starts at that first brace, is not parseable, and
`processResponse` settles to false and sends nothing. -/
theorem prose_brace_breaks_match :
    fencedJsonRe (cleanText proseWithBraces) = none ∧
    cleanText proseWithBraces = js "Take \x7bx\x7d then " ++ payload ∧
    validCandidate payload = true ∧
    selectCandidate (cleanText proseWithBraces)
      = js "\x7bx\x7d then \x7b\"answer\":\"4\",\"explanation\":\"Basic arithmetic.\"\x7d" ∧
    (processResponse proseWithBraces State.init).1.settles.toOption = some false ∧
    (processResponse proseWithBraces State.init).2.trace = [] := by
  refine ⟨by decide, by decide, by decide, by decide, by decide, by decide⟩

/-- Claim C5, amended. For a text without a fenced block whose cleaned form is prose
without an opening brace, then a brace-delimited text with the key `"answer"` before
the key `"explanation"` and no closing brace before its last character, then anything:
when that braced text parses to a value with a truthy `answer`, `processResponse`
called with `hasResponded = false` selects it as the candidate, settles to true, sets
`hasResponded` and sends it. -/
theorem brace_candidate_accepted (text : Str) (s : State) (pre g1 g2 g3 post : Str)
    (hr : s.hasResponded = false)
    (hfence : fencedJsonRe (cleanText text) = none)
    (hclean : cleanText text = pre ++ braced g1 g2 g3 ++ post)
    (hpre : includes pre (js "\x7b") = false)
    (h1 : includes g1 (js "\x7d") = false)
    (h2 : includes g2 (js "\x7d") = false)
    (h3 : includes g3 (js "\x7d") = false)
    (hvalid : validCandidate (braced g1 g2 g3) = true) :
    selectCandidate (cleanText text) = braced g1 g2 g3 ∧
    processResponse text s = ({ settles := .ok true }, accept (braced g1 g2 g3) s) := by
  rw [js_brace_open] at hpre
  rw [js_brace_close] at h1 h2 h3
  have hm := answerExplanationRe_braced true pre g1 g2 g3 post (includes_single _ _ hpre)
    (includes_single _ _ h1) (includes_single _ _ h2) (includes_single _ _ h3)
  have hsel : selectCandidate (cleanText text) = braced g1 g2 g3 := by
    unfold selectCandidate
    rw [hfence, hclean, hm]
  refine ⟨hsel, ?_⟩
  rw [processResponse_eq, hsel]
  simp [hvalid, hr]

/-- Witness of claim C5 (amended): the payload of the scenario between two sentences. -/
theorem brace_candidate_accepted_witness :
    selectCandidate (cleanText (js "The result is " ++ payload ++ js " as computed."))
      = payload ∧
    processResponse (js "The result is " ++ payload ++ js " as computed.") State.init
      = ({ settles := .ok true }, accept payload State.init) :=
  brace_candidate_accepted (js "The result is " ++ payload ++ js " as computed.") State.init
    (js "The result is ") [] (js ":\"4\",") (js ":\"Basic arithmetic.\"") (js " as computed.")
    rfl (by decide) (by decide) (by decide) (by decide) (by decide) (by decide) (by decide)

theorem greedyWs_of_not_ws {ρ : Type} (k : Str → Option ρ) (c : Nat) (t : Str)
    (h : isWs c = false) : greedyWs k (c :: t) = k (c :: t) := by
  rw [greedyWs]
  simp [h]

theorem greedyWs_skip {ρ : Type} (k : Str → Option ρ) (w y : Str) (r : ρ)
    (hw : ∀ c ∈ w, isWs c = true) (h : greedyWs k y = some r) :
    greedyWs k (w ++ y) = some r := by
  induction w with
  | nil => exact h
  | cons c w ih =>
    have hc : isWs c = true := hw c (List.mem_cons_self c w)
    have ih2 := ih (fun x hx => hw x (List.mem_cons_of_mem c hx))
    rw [List.cons_append, greedyWs]
    simp [hc, ih2]

theorem greedyWs_none {ρ : Type} (k : Str → Option ρ) (s : Str)
    (h : ∀ u w, s = u ++ w → (∀ c ∈ u, isWs c = true) → k w = none) :
    greedyWs k s = none := by
  induction s with
  | nil =>
    rw [greedyWs]
    exact h [] [] rfl (by simp)
  | cons c t ih =>
    have h0 : k (c :: t) = none := h [] (c :: t) rfl (by simp)
    rw [greedyWs]
    split
    · rename_i hc
      have ih2 : greedyWs k t = none := by
        apply ih
        intro u w huw hu
        apply h (c :: u) w (by simp [huw])
        intro x hx
        rcases List.mem_cons.mp hx with e | e
        · rw [e]
          exact hc
        · exact hu x e
      simp [ih2, h0]
    · exact h0

theorem dropLit_exact (b : Bool) (p s z : Str)
    (hp : ∀ a ∈ p, a < 65 ∨ (90 < a ∧ a < 97) ∨ 122 < a)
    (h : dropLit b p s = some z) : s = p ++ z := by
  induction p generalizing s with
  | nil =>
    simp [dropLit] at h
    simp [h]
  | cons a p ih =>
    cases s with
    | nil => simp [dropLit] at h
    | cons c cs =>
      simp only [dropLit] at h
      split at h
      · rename_i hc
        have e := chEq_of_not_letter b a c (hp a (List.mem_cons_self a p)) hc
        have := ih cs (fun x hx => hp x (List.mem_cons_of_mem a hx)) h
        simp [e, this]
      · simp at h

theorem dropLit_append (b : Bool) (p t z R : Str) (h : dropLit b p t = some z) :
    dropLit b p (t ++ R) = some (z ++ R) := by
  induction p generalizing t with
  | nil =>
    simp [dropLit] at h
    simp [dropLit, h]
  | cons a p ih =>
    cases t with
    | nil => simp [dropLit] at h
    | cons c cs =>
      simp only [dropLit] at h
      split at h
      · rename_i hc
        simp [dropLit, hc, ih cs h]
      · simp at h

theorem includes_false (t p : Str) (h : includes t p = false) :
    ∀ u w, t = u ++ w → p.isPrefixOf w = false := by
  induction t with
  | nil =>
    intro u w huw
    have hu : u = [] := by
      cases u with
      | nil => rfl
      | cons a u => simp at huw
    have hw : w = [] := by
      subst hu
      simpa using huw.symm
    subst hw
    cases p with
    | nil => simp [includes] at h
    | cons a p => rfl
  | cons c t ih =>
    simp only [includes, Bool.or_eq_false_iff] at h
    intro u w huw
    cases u with
    | nil =>
      simp only [List.nil_append] at huw
      rw [← huw]
      exact h.1
    | cons a u =>
      simp only [List.cons_append, List.cons.injEq] at huw
      exact ih h.2 u w huw.2

theorem no_fence_at (t : Str) (h : includes t [96, 96, 96] = false) (u w z : Str)
    (e : t = u ++ ([96, 96, 96] ++ z) ++ w) : False := by
  have h2 := includes_false t _ h u ([96, 96, 96] ++ z ++ w) (by simp [e])
  simp [List.isPrefixOf] at h2

theorem suffix_ends (x v w : Str) (a : Nat) (e : x ++ [a] = v ++ w) (hw : w ≠ []) :
    ∃ w2, w = w2 ++ [a] ∧ x = v ++ w2 := by
  rcases List.eq_nil_or_concat w with h | ⟨w2, b, h⟩
  · exact absurd h hw
  · subst h
    rw [List.concat_eq_append, ← List.append_assoc] at e
    have := List.append_inj' e rfl
    refine ⟨w2, ?_, this.1⟩
    simp only [List.concat_eq_append]
    have hb : a = b := by simpa using this.2
    rw [hb]

theorem fence_not_letter : ∀ a ∈ ([96, 96, 96] : Str), a < 65 ∨ (90 < a ∧ a < 97) ∨ 122 < a := by
  decide

/-- Inside the inner content of a fenced block (which ends with a closing brace and has
no three backticks) the closing part of the fence pattern does not match. -/
theorem fence_inner_fail {ρ : Type} (x v w ws2 post : Str) (c : Str → Option ρ)
    (hno : includes (x ++ [125]) [96, 96, 96] = false)
    (e : x ++ [125] = v ++ w) (hw : w ≠ []) :
    greedyWs (lit true [96, 96, 96] c) (w ++ (ws2 ++ ([96, 96, 96] ++ post))) = none := by
  obtain ⟨w2, hw2, hx⟩ := suffix_ends x v w 125 e hw
  apply greedyWs_none
  intro u r hur hu
  cases hd : dropLit true [96, 96, 96] r with
  | none => exact lit_eq_none true _ c r hd
  | some z =>
    exfalso
    have hr := dropLit_exact true _ r z fence_not_letter hd
    rw [hr, hw2] at hur
    have hur2 : w2 ++ (125 :: (ws2 ++ ([96, 96, 96] ++ post))) = (u ++ [96, 96, 96]) ++ z := by
      simpa using hur
    rcases List.append_eq_append_iff.mp hur2 with ⟨a, ha1, ha2⟩ | ⟨c2, hc1, _⟩
    · cases a with
      | nil =>
        apply no_fence_at (x ++ [125]) hno (v ++ u) [125] []
        rw [hx]
        simp at ha1
        simp [← ha1]
      | cons h a =>
        simp only [List.cons_append, List.cons.injEq] at ha2
        have hmem : (125 : Nat) ∈ u ++ [96, 96, 96] := by
          rw [ha1, ← ha2.1]
          simp
        rcases List.mem_append.mp hmem with h1 | h1
        · have := hu 125 h1
          simp [isWs] at this
        · simp at h1
    · apply no_fence_at (x ++ [125]) hno (v ++ u) [125] c2
      rw [hx, hc1]
      simp

/-- The fence pattern on a text whose first three backticks open a block, tagged `json`
or not at all, with brace-delimited inner content free of three backticks: group 1 is
the inner content. -/
theorem fencedJsonRe_fenced (pre tag ws1 mid ws2 post : Str)
    (hpre : includes (pre ++ [96, 96]) [96, 96, 96] = false)
    (htag : tag = [] ∨ dropLit true (js "json") tag = some [])
    (hws1 : ∀ c ∈ ws1, isWs c = true) (hws2 : ∀ c ∈ ws2, isWs c = true)
    (hno : includes (123 :: mid ++ [125]) [96, 96, 96] = false) :
    fencedJsonRe (fenced pre tag ws1 (123 :: mid ++ [125]) ws2 post)
      = some (123 :: mid ++ [125]) := by
  have hshape : fenced pre tag ws1 (123 :: mid ++ [125]) ws2 post =
      pre ++ ([96, 96, 96] ++ (tag ++ (ws1 ++
        ((123 :: mid ++ [125]) ++ (ws2 ++ ([96, 96, 96] ++ post)))))) := by
    simp [fenced, js_fence]
  -- the closing fence right after the inner content
  have hA : ∀ c : Str → Option Str,
      greedyWs (lit true [96, 96, 96] c) (ws2 ++ ([96, 96, 96] ++ post)) = c post := by
    intro c
    cases hc : c post with
    | none =>
      apply greedyWs_none
      intro u w huw hu
      cases hd : dropLit true [96, 96, 96] w with
      | none => exact lit_eq_none true _ c w hd
      | some z =>
        rw [lit_eq_of_drop true _ c w z hd]
        have hr := dropLit_exact true _ w z fence_not_letter hd
        rw [hr] at huw
        have hz : z = post := by
          rcases List.append_eq_append_iff.mp huw with ⟨a, ha1, ha2⟩ | ⟨c2, hc1, hc2⟩
          · cases a with
            | nil =>
              simp only [List.nil_append] at ha2
              exact (List.append_cancel_left ha2).symm
            | cons h a =>
              exfalso
              have h96 : (96 : Nat) ∈ u := by
                rw [ha1]
                have : h = 96 := by
                  simp only [List.cons_append, List.cons.injEq] at ha2
                  exact ha2.1.symm
                simp [this]
              have := hu 96 h96
              simp [isWs] at this
          · cases c2 with
            | nil =>
              simp only [List.nil_append] at hc2
              exact List.append_cancel_left hc2
            | cons h c2 =>
              exfalso
              have h96 : (96 : Nat) ∈ ws2 := by
                rw [hc1]
                have : h = 96 := by
                  simp only [List.cons_append, List.cons.injEq] at hc2
                  exact hc2.1.symm
                simp [this]
              have := hws2 96 h96
              simp [isWs] at this
        rw [hz, hc]
    | some r =>
      apply greedyWs_skip _ _ _ _ hws2
      rw [show ([96, 96, 96] : Str) ++ post = 96 :: (96 :: 96 :: post) from rfl,
        greedyWs_of_not_ws _ _ _ (by decide)]
      rw [show (96 : Nat) :: (96 :: 96 :: post) = [96, 96, 96] ++ post from rfl,
        lit_eq_of_drop true _ c _ post (dropLit_append_self true _ post)]
      exact hc
  -- the lazy group stops exactly at the end of the inner content
  have hB : lazyAny (fun e => greedyWs (lit true [96, 96, 96]
        (fun _ => some (matched ((123 :: mid ++ [125]) ++ (ws2 ++ ([96, 96, 96] ++ post))) e))) e)
      ((123 :: mid ++ [125]) ++ (ws2 ++ ([96, 96, 96] ++ post))) = some (123 :: mid ++ [125]) := by
    rw [← search_eq_lazyAny, search_skip]
    · apply search_of_here
      rw [hA, matched_append]
    · intro u w huw hne
      exact fence_inner_fail (123 :: mid) u w ws2 post _ hno huw hne
  -- the white space before the inner content
  have hC : greedyWs (fun b => lazyAny (fun e => greedyWs (lit true [96, 96, 96]
        (fun _ => some (matched b e))) e) b)
      (ws1 ++ ((123 :: mid ++ [125]) ++ (ws2 ++ ([96, 96, 96] ++ post))))
      = some (123 :: mid ++ [125]) := by
    apply greedyWs_skip _ _ _ _ hws1
    rw [show (123 :: mid ++ [125]) ++ (ws2 ++ ([96, 96, 96] ++ post))
        = 123 :: ((mid ++ [125]) ++ (ws2 ++ ([96, 96, 96] ++ post))) from rfl,
      greedyWs_of_not_ws _ _ _ (by decide)]
    exact hB
  -- the optional tag
  have hD : optionalGroup (lit true (js "json"))
      (greedyWs (fun b => lazyAny (fun e => greedyWs (lit true [96, 96, 96]
        (fun _ => some (matched b e))) e) b))
      (tag ++ (ws1 ++ ((123 :: mid ++ [125]) ++ (ws2 ++ ([96, 96, 96] ++ post)))))
      = some (123 :: mid ++ [125]) := by
    unfold optionalGroup
    rcases htag with ht | ht
    · subst ht
      have hn : dropLit true (js "json")
          ([] ++ (ws1 ++ ((123 :: mid ++ [125]) ++ (ws2 ++ ([96, 96, 96] ++ post))))) = none := by
        rw [js_json]
        cases ws1 with
        | nil => simp [dropLit, chEq, canonicalize]
        | cons c ws1 =>
          have hc : isWs c = true := hws1 c (List.mem_cons_self c ws1)
          have hj : chEq true 106 c = false := by
            cases hch : chEq true 106 c with
            | false => rfl
            | true =>
              exfalso
              simp only [chEq, canonicalize, if_true, beq_iff_eq] at hch
              have h2 : c = 74 ∨ c = 106 := by
                split at hch <;> split at hch <;> omega
              rcases h2 with h2 | h2 <;> subst h2 <;> simp [isWs] at hc
          simp [dropLit, hj]
      rw [lit_eq_none true _ _ _ hn]
      simpa using hC
    · have hd := dropLit_append true (js "json") tag []
        (ws1 ++ ((123 :: mid ++ [125]) ++ (ws2 ++ ([96, 96, 96] ++ post)))) ht
      rw [List.nil_append] at hd
      rw [lit_eq_of_drop true _ _ _ _ hd, hC]
  rw [fencedJsonRe, hshape, search_skip]
  · apply search_of_here
    rw [fencedAt, js_fence, lit_eq_of_drop true _ _ _ _ (dropLit_append_self true _ _)]
    exact hD
  · intro u w huw hne
    rw [fencedAt, js_fence]
    apply lit_eq_none
    cases hd : dropLit true [96, 96, 96] (w ++ ([96, 96, 96] ++ (tag ++ (ws1 ++
        ((123 :: mid ++ [125]) ++ (ws2 ++ ([96, 96, 96] ++ post))))))) with
    | none => rfl
    | some z =>
      exfalso
      have hr := dropLit_exact true _ _ z fence_not_letter hd
      have p1 : ([96, 96, 96] : Str) <+: w ++ ([96, 96, 96] ++ (tag ++ (ws1 ++
          ((123 :: mid ++ [125]) ++ (ws2 ++ ([96, 96, 96] ++ post)))))) := ⟨z, hr.symm⟩
      have p2 : w ++ [96, 96] <+: w ++ ([96, 96, 96] ++ (tag ++ (ws1 ++
          ((123 :: mid ++ [125]) ++ (ws2 ++ ([96, 96, 96] ++ post)))))) :=
        ⟨96 :: (tag ++ (ws1 ++ ((123 :: mid ++ [125]) ++ (ws2 ++ ([96, 96, 96] ++ post))))),
          by simp⟩
      have hlen : ([96, 96, 96] : Str).length ≤ (w ++ [96, 96]).length := by
        cases w with
        | nil => exact absurd rfl hne
        | cons a w => simp
      have p3 := List.prefix_of_prefix_length_le p1 p2 hlen
      have h2 := includes_false _ _ hpre u (w ++ [96, 96]) (by simp [huw])
      rw [List.isPrefixOf_iff_prefix.mpr p3] at h2
      exact Bool.noConfusion h2

theorem trim_braced (mid : Str) : trim (123 :: mid ++ [125]) = 123 :: mid ++ [125] := by
  have h1 : trimStart (123 :: mid ++ [125]) = 123 :: mid ++ [125] := by
    rw [List.cons_append, trimStart]
    simp [isWs]
  have h2 : (123 :: mid ++ [125]).reverse = 125 :: (mid.reverse ++ [123]) := by simp
  have h3 : trimStart (125 :: (mid.reverse ++ [123])) = 125 :: (mid.reverse ++ [123]) := by
    rw [trimStart]
    simp [isWs]
  rw [trim, h1, h2, h3, ← h2, List.reverse_reverse]

/-- Counterexample to claim C2 as stated, at two texts. In the first the fenced block
is tagged `javascript` and holds the payload: the candidate is the tag together with
the payload, which is not parseable. In the second the block holds an object with both
fields whose answer is `false`. In both `processResponse`, called with
`hasResponded = false`, settles to false and sends nothing. -/
theorem fenced_block_rejected :
    (selectCandidate (cleanText taggedText) = js "javascript\n" ++ payload ∧
      validCandidate payload = true ∧
      (processResponse taggedText State.init).1.settles.toOption = some false ∧
      (processResponse taggedText State.init).2.trace = []) ∧
    (selectCandidate (cleanText falseAnswerText)
        = js "\x7b\"answer\":false,\"explanation\":\"It does not hold.\"\x7d" ∧
      (JSON.parse (selectCandidate (cleanText falseAnswerText))).toOption.map specAccepts
        = some true ∧
      (processResponse falseAnswerText State.init).1.settles.toOption = some false ∧
      (processResponse falseAnswerText State.init).2.trace = []) := by
  refine ⟨⟨by decide, by decide, by decide, by decide⟩,
    ⟨by decide, by decide, by decide, by decide⟩⟩

/-- Claim C2, amended. Let the cleaned text be prose, three backticks that are the
first three backticks of the text, no tag or the tag `json` in any letter case, white
space, a brace-delimited inner content without three backticks, white space, three
backticks, and anything after. When the inner content parses to a value with a truthy
`answer`, `processResponse` called with `hasResponded = false` selects the inner
content as the candidate, settles to true, sets `hasResponded` and sends it. -/
theorem fenced_candidate_accepted (text : Str) (s : State) (pre tag ws1 mid ws2 post : Str)
    (hr : s.hasResponded = false)
    (hclean : cleanText text
      = fenced pre tag ws1 (js "\x7b" ++ mid ++ js "\x7d") ws2 post)
    (hpre : includes (pre ++ js "``") (js "```") = false)
    (htag : tag = [] ∨ dropLit true (js "json") tag = some [])
    (hws1 : ws1.all isWs = true) (hws2 : ws2.all isWs = true)
    (hno : includes (js "\x7b" ++ mid ++ js "\x7d") (js "```") = false)
    (hvalid : validCandidate (js "\x7b" ++ mid ++ js "\x7d") = true) :
    selectCandidate (cleanText text) = js "\x7b" ++ mid ++ js "\x7d" ∧
    processResponse text s
      = ({ settles := .ok true }, accept (js "\x7b" ++ mid ++ js "\x7d") s) := by
  have e : js "\x7b" ++ mid ++ js "\x7d" = 123 :: mid ++ [125] := by
    simp [js_brace_open, js_brace_close]
  rw [e] at hclean hno hvalid ⊢
  rw [js_fence] at hno
  rw [js_fence, js_two_ticks] at hpre
  have hm := fencedJsonRe_fenced pre tag ws1 mid ws2 post hpre htag
    (fun c hc => List.all_eq_true.mp hws1 c hc) (fun c hc => List.all_eq_true.mp hws2 c hc) hno
  have hsel : selectCandidate (cleanText text) = 123 :: mid ++ [125] := by
    unfold selectCandidate
    rw [hclean, hm]
    simp only [trim_braced]
    rfl
  refine ⟨hsel, ?_⟩
  rw [processResponse_eq, hsel, hvalid, hr]
  rfl

/-- Witness of claim C2 (amended): the payload in a `json` block between two
sentences. -/
theorem fenced_candidate_accepted_witness :
    selectCandidate (cleanText fencedReply) = payload ∧
    processResponse fencedReply State.init
      = ({ settles := .ok true }, accept payload State.init) :=
  fenced_candidate_accepted fencedReply State.init (js "Here is the answer:\n") (js "json")
    (js "\n") (js "\"answer\":\"4\",\"explanation\":\"Basic arithmetic.\"") (js "\n")
    (js "\nDone.") rfl (by decide) (by decide) (by decide) (by decide) (by decide)
    (by decide) (by decide)

end DeepSeek
